import Mathlib

/-
Verification of the normalization-and-delivery pipeline of the
pino-elasticsearch logging repository.

The repository holds two near-duplicate implementations of the pipeline:
`src/lib.js` and the unnamed source file (called `part_000` below) that adds
a deep merge of an `additionalObject` into every document, `msg`/`message`
renaming, unconditional `@timestamp` recomputation and `time` deletion.
Both mapper variants are embedded below; the helpers (`setDateTimeString`,
`getIndexName`, `onDocument`, the client options) are textually identical in
the two files and are embedded once.

Modelling conventions:
 - JSON values are the inductive `Json`; JavaScript objects are
   insertion-ordered association lists with pairwise-distinct keys (the
   invariant JavaScript objects maintain; stated as a `Nodup` hypothesis
   where a theorem needs it). JSON numbers are modelled as integers; every
   number any claim mentions is an integer exactly representable as a
   binary64 float.
 - Host functions of the JavaScript runtime are modelled explicitly: the
   wall clock and `Date` string parsing live in an `Env` record
   (`Date.parse` is implementation-defined outside the ISO format, so it is
   kept as a parameter), while `Date.prototype.toISOString` is implemented
   exactly: proleptic Gregorian calendar on milliseconds since the epoch,
   with the ECMA-262 range rule that time values of magnitude above 8.64e15
   are invalid and make `toISOString` throw a RangeError.
 - Exceptions thrown by the embedded code are modelled with `Except JsErr`;
   `undefined` is modelled by `Option` where it can occur.
-/

namespace PinoES

/-- A JSON value as produced by a successful `JSON.parse`. -/
inductive Json where
  | null : Json
  | bool (b : Bool) : Json
  | num (n : Int) : Json
  | str (s : String) : Json
  | arr (elems : List Json) : Json
  | obj (fields : List (String × Json)) : Json

/-- Exceptions the embedded code can throw. -/
inductive JsErr where
  | typeError : JsErr
  | rangeError : JsErr
deriving DecidableEq

/-- Property read on an association-list object: value of the first binding
of the key, `none` when absent (JavaScript `undefined`). -/
def objGet : List (String × Json) → String → Option Json
  | [], _ => none
  | (k, v) :: rest, key => if k = key then some v else objGet rest key

/-- Property write: updates the first binding of the key in place, appends a
new binding otherwise (JavaScript assignment on plain objects). -/
def objSet : List (String × Json) → String → Json → List (String × Json)
  | [], key, val => [(key, val)]
  | (k, v) :: rest, key, val =>
    if k = key then (k, val) :: rest else (k, v) :: objSet rest key val

/-- Property deletion: removes the first binding of the key (JavaScript
`delete` removes the single own property of that name). -/
def objDelete : List (String × Json) → String → List (String × Json)
  | [], _ => []
  | (k, v) :: rest, key =>
    if k = key then rest else (k, v) :: objDelete rest key

/-- Key list of an association-list object. -/
def objKeys (fields : List (String × Json)) : List String :=
  fields.map Prod.fst

/-- JavaScript truthiness of a JSON value (`NaN` cannot arise from
`JSON.parse`, and numbers are modelled as integers, so a number is falsy
exactly when it is zero). -/
def jsTruthy : Json → Bool
  | .null => false
  | .bool b => b
  | .num n => n != 0
  | .str s => s.length != 0
  | .arr _ => true
  | .obj _ => true

/-- The guard `isObject` of `mergeDeep` in the source:
`obj && typeof obj === "object"` — true for arrays and objects, false for
`null` (falsy) and for primitives. -/
def isObjectB : Json → Bool
  | .arr _ => true
  | .obj _ => true
  | _ => false

/-- The test `Array.isArray` used by `mergeDeep`. -/
def isArr : Json → Bool
  | .arr _ => true
  | _ => false

/-- Elements of an array value (only read under an `isArr` guard). -/
def arrElems : Json → List Json
  | .arr xs => xs
  | _ => []

/-- The test `typeof value === "object"` of the mapper: unlike `isObjectB`
it is also true for `null`. -/
def typeofObject : Json → Bool
  | .null => true
  | .arr _ => true
  | .obj _ => true
  | _ => false

/-- Named property read on any value; the names the code reads are only
present on objects (arrays carry index properties, primitives carry none of
those names). -/
def jsGetProp : Json → String → Option Json
  | .obj fs, k => objGet fs k
  | _, _ => none

/-- Named property write on any value. On a non-object the write is dropped
in this model: the mapper only assigns named properties to values that
passed the `typeof value === "object"` test, and no claim exercises an
array-valued or primitive target of such a write. -/
def jsSetProp : Json → String → Json → Json
  | .obj fs, k, v => .obj (objSet fs k v)
  | other, _, _ => other

/-- Named property deletion on any value; same scope remark as `jsSetProp`. -/
def jsDeleteProp : Json → String → Json
  | .obj fs, k => .obj (objDelete fs k)
  | other, _ => other

/-- Index properties of an array, as `Object.keys` enumerates them. -/
def indexProps (i : Nat) : List Json → List (String × Json)
  | [] => []
  | x :: rest => (toString i, x) :: indexProps (i + 1) rest

/-- The own enumerable properties that the `Object.keys`-driven iteration of
`mergeDeep` sees: the bindings of an object, the index properties of an
array, none for a number or a boolean. `Object.keys` on `null` or
`undefined` throws; the two call sites of this function either guard that
case away (`isObjectB`) or handle it separately (`mergeDeepTop`), so `null`
is given the empty list here. Primitive strings never reach this function:
`isObjectB` is false on them and the top-level merge arguments in the
pipeline are objects. -/
def jsEnumProps : Json → List (String × Json)
  | .obj fs => fs
  | .arr xs => indexProps 0 xs
  | _ => []

mutual

/-- Size measure on JSON values, used to justify termination of the merge. -/
def jsize : Json → Nat
  | .null => 1
  | .bool _ => 1
  | .num _ => 1
  | .str _ => 1
  | .arr xs => 1 + jsizeL xs
  | .obj fs => 1 + jsizeF fs

/-- Size measure on JSON arrays. -/
def jsizeL : List Json → Nat
  | [] => 0
  | x :: rest => jsize x + jsizeL rest

/-- Size measure on association lists. -/
def jsizeF : List (String × Json) → Nat
  | [] => 0
  | (_, v) :: rest => jsize v + jsizeF rest

end

theorem jsize_pos (v : Json) : 0 < jsize v := by
  cases v <;> simp [jsize]

theorem jsizeF_indexProps (xs : List Json) :
    ∀ i, jsizeF (indexProps i xs) = jsizeL xs := by
  induction xs with
  | nil => intro i; simp [indexProps, jsizeF, jsizeL]
  | cons x rest ih => intro i; simp [indexProps, jsizeF, jsizeL, ih]

theorem jsizeF_enum_lt (v : Json) (h : isObjectB v = true) :
    jsizeF (jsEnumProps v) < jsize v := by
  cases v with
  | arr xs => simp [jsEnumProps, jsize, jsizeF_indexProps]
  | obj fs => simp [jsEnumProps, jsize]
  | _ => simp [isObjectB] at h

/-- Spreading of one argument of `Array.prototype.concat`: an array argument
contributes its elements, any other argument contributes itself. -/
def spreadElem : Json → List Json
  | .arr xs => xs
  | v => [v]

/-- The list of elements `pVal.concat(...oVal)` appends after `pVal`: each
element of `oVal` becomes one argument of `concat`, and `concat` splices
array arguments one level deep. -/
def spreadList : List Json → List Json
  | [] => []
  | x :: rest => spreadElem x ++ spreadList rest

/-- The body of the reduce step of `mergeDeep`: folds the enumerable
properties of one source value into the accumulator object. For each key:
two arrays concatenate (with the one-level spread of the source elements
that `concat(...oVal)` performs), two objects (in the `isObject` sense, so
arrays included) merge recursively — the inner `mergeDeep(pVal, oVal)`
first copies `pVal` into a fresh accumulator, which on
pairwise-distinct-keys enumerations reproduces `jsEnumProps pVal`
(theorem `mergeFold_copy` below) — and in every other case, including an
absent accumulator entry, the source value overwrites. -/
def mergeFold : List (String × Json) → List (String × Json) → List (String × Json)
  | acc, [] => acc
  | acc, (key, oVal) :: rest =>
    let newVal : Json :=
      match objGet acc key with
      | none => oVal
      | some pVal =>
        if isArr pVal && isArr oVal then
          .arr (arrElems pVal ++ spreadList (arrElems oVal))
        else if _h : isObjectB pVal && isObjectB oVal then
          .obj (mergeFold (jsEnumProps pVal) (jsEnumProps oVal))
        else oVal
    mergeFold (objSet acc key newVal) rest
termination_by _ props => jsizeF props
decreasing_by
  all_goals simp_wf
  · simp only [Bool.and_eq_true] at _h
    have := jsizeF_enum_lt oVal _h.2
    simp only [jsizeF]
    omega
  · have := jsize_pos oVal
    simp only [jsizeF]
    omega

/-- The two-argument `mergeDeep(a, b)`: a reduce over the argument list from
a fresh accumulator — first `a` is folded into the empty object, then `b`
into the result. -/
def mergeDeep2 (a b : Json) : Json :=
  .obj (mergeFold (mergeFold [] (jsEnumProps a)) (jsEnumProps b))

/-- The call `mergeDeep(value, opts.additionalObject)` at the end of the
mapper of `part_000`. When `additionalObject` is absent (`undefined`) or
`null`, the reduce step reaches `Object.keys` of that argument and throws a
TypeError. -/
def mergeDeepTop (value : Json) (additional : Option Json) : Except JsErr Json :=
  match additional with
  | none => .error .typeError
  | some .null => .error .typeError
  | some a => .ok (mergeDeep2 value a)

/-- Model of the JavaScript host: current wall clock in milliseconds since
the epoch, and the `Date` parser for strings (`none` models an unparseable
string, whose `Date` is Invalid). -/
structure Env where
  nowMs : Int
  dateParse : String → Option Int

/-- Zero padding used by the ISO-8601 rendering. -/
def pad (w : Nat) (n : Nat) : String :=
  let s := toString n
  String.mk (List.replicate (w - s.length) (Char.ofNat 48)) ++ s

/-- Civil date (year, month, day) of a count of days since 1970-01-01, on
the proleptic Gregorian calendar. -/
def civilFromDays (z : Int) : Int × Nat × Nat :=
  let zd := z + 719468
  let era := Int.ediv zd 146097
  let doe := (zd - era * 146097).toNat
  let yoe := (doe - doe / 1460 + doe / 36524 - doe / 146096) / 365
  let doy := doe - (365 * yoe + yoe / 4 - yoe / 100)
  let mp := (5 * doy + 2) / 153
  let d := doy - (153 * mp + 2) / 5 + 1
  let m := if mp < 10 then mp + 3 else mp - 9
  let y : Int := (yoe : Int) + era * 400 + (if m ≤ 2 then 1 else 0)
  (y, m, d)

/-- Rendering of a valid time value as `Date.prototype.toISOString` formats
it, expanded-years forms included. -/
def isoString (t : Int) : String :=
  let ms := (Int.emod t 1000).toNat
  let secs := Int.ediv t 1000
  let sod := (Int.emod secs 86400).toNat
  let days := Int.ediv secs 86400
  let c := civilFromDays days
  let y := c.1
  let m := c.2.1
  let d := c.2.2
  let datePart :=
    if 0 ≤ y ∧ y ≤ 9999 then pad 4 y.toNat
    else if y < 0 then "-" ++ pad 6 (-y).toNat
    else "+" ++ pad 6 y.toNat
  datePart ++ "-" ++ pad 2 m ++ "-" ++ pad 2 d ++ "T" ++ pad 2 (sod / 3600) ++ ":"
    ++ pad 2 (sod % 3600 / 60) ++ ":" ++ pad 2 (sod % 60) ++ "." ++ pad 3 ms ++ "Z"

/-- The largest magnitude of a valid ECMAScript time value (8.64e15 ms). -/
def timeValueMax : Int := 8640000000000000

/-- The composite `new Date(x).toISOString()` on a time value that may be
invalid (`none`): `toISOString` throws a RangeError on an Invalid Date, and
a numeric time value of magnitude above `timeValueMax` is clipped to NaN by
the `Date` constructor, with the same outcome. -/
def jsToISO : Option Int → Except JsErr String
  | none => .error .rangeError
  | some t =>
    if t.natAbs ≤ 8640000000000000 then .ok (isoString t) else .error .rangeError

/-- The helper `setDateTimeString(value)`, identical in both source files:
if `value` is a `typeof`-object that has an own `time` property holding a
non-empty string or a non-negative number, convert that value with
`new Date(...).toISOString()`; otherwise use the current instant. On
`null`, `typeof value === "object"` holds and `value.hasOwnProperty`
throws a TypeError. The conversion itself throws a RangeError when the
`time` value does not denote a valid instant. -/
def setDateTimeString (env : Env) : Json → Except JsErr String
  | .null => .error .typeError
  | .obj fields =>
    match objGet fields "time" with
    | some (.str s) =>
      if s.length != 0 then jsToISO (env.dateParse s) else .ok (isoString env.nowMs)
    | some (.num n) =>
      if 0 ≤ n then jsToISO (some n) else .ok (isoString env.nowMs)
    | _ => .ok (isoString env.nowMs)
  | _ => .ok (isoString env.nowMs)

/-- Test whether `pat` is an initial segment of `s`. -/
def leadsWith : List Char → List Char → Bool
  | [], _ => true
  | _ :: _, [] => false
  | p :: ps, c :: cs => p = c && leadsWith ps cs

/-- Position of the first occurrence of `pat` in a character list, as
`String.prototype.replace` locates a string pattern. -/
def findFrom (pat : List Char) : List Char → Option Nat
  | [] => if leadsWith pat [] then some 0 else none
  | c :: rest =>
    if leadsWith pat (c :: rest) then some 0
    else (findFrom pat rest).map (fun i => i + 1)

/-- The GetSubstitution scan of ECMA-262 for a string (captureless) pattern:
in the replacement text, a dollar sign followed by another dollar sign
yields a dollar sign, by an ampersand yields the matched substring, by a
backquote (character 96) yields the part before the match, by a quote
(character 39) yields the part after the match; anything else is literal. -/
def substScan (matched before after : List Char) : List Char → List Char
  | [] => []
  | c :: rest =>
    if c = Char.ofNat 36 then
      match rest with
      | [] => [Char.ofNat 36]
      | d :: rest2 =>
        if d = Char.ofNat 36 then Char.ofNat 36 :: substScan matched before after rest2
        else if d = Char.ofNat 38 then matched ++ substScan matched before after rest2
        else if d = Char.ofNat 96 then before ++ substScan matched before after rest2
        else if d = Char.ofNat 39 then after ++ substScan matched before after rest2
        else Char.ofNat 36 :: substScan matched before after (d :: rest2)
    else c :: substScan matched before after rest

/-- `String.prototype.replace` with a string pattern: replaces the first
occurrence only, applying the GetSubstitution processing to the replacement
text. -/
def jsReplaceFirst (s pat repl : String) : String :=
  match findFrom pat.data s.data with
  | none => s
  | some i =>
    String.mk (s.data.take i
      ++ substScan pat.data (s.data.take i) (s.data.drop (i + pat.data.length)) repl.data
      ++ s.data.drop (i + pat.data.length))

/-- Replacement of the first occurrence of `pat` by the literal text `repl`,
with no processing of the replacement text. This is the substitution the
specification describes; `jsReplaceFirst` coincides with it whenever the
replacement text holds no dollar sign (theorem `jsReplaceFirst_literal`). -/
def literalReplaceFirst (s pat repl : String) : String :=
  match findFrom pat.data s.data with
  | none => s
  | some i =>
    String.mk (s.data.take i ++ repl.data ++ s.data.drop (i + pat.data.length))

/-- Index configuration: `opts.index` is either a template string or a
caller-supplied naming function. -/
inductive IndexCfg where
  | template (s : String)
  | builder (f : Json → String)

/-- The helper `getIndexName(time = new Date().toISOString())`, identical in
both source files. An absent (`undefined`) argument takes the default, the
current instant rendered as ISO-8601. A naming function receives the
defaulted argument. On a template, the placeholder is replaced by
`time.substring(0, 10)` when `time` supports `substring` — that is, when it
is a string — and by the empty string otherwise; reading a property of
`null` throws a TypeError. -/
def getIndexName (env : Env) (idx : IndexCfg) (timeArg : Option Json) : Except JsErr String :=
  let t : Json :=
    match timeArg with
    | none => .str (isoString env.nowMs)
    | some v => v
  match idx with
  | .builder f => .ok (f t)
  | .template tpl =>
    match t with
    | .str s => .ok (jsReplaceFirst tpl "%\x7bDATE\x7d" (s.take 10))
    | .null => .error .typeError
    | _ => .ok (jsReplaceFirst tpl "%\x7bDATE\x7d" "")

/-- The per-document handler `onDocument(doc)` of the bulk helper, identical
in both source files: `date` is `doc.time || doc['@timestamp']` (`none`
models `undefined`, reachable only when `time` is falsy or absent and
`@timestamp` is absent); when the operation type is `create`, `@timestamp`
is overwritten with `date` — assignment of `undefined` is approximated by
`null`, a path no claim exercises — and the returned action carries the
index name resolved for `date`. -/
def onDocument (env : Env) (opType : Option String) (idx : IndexCfg) (doc : Json) :
    Json × Except JsErr String :=
  let date : Option Json :=
    match jsGetProp doc "time" with
    | some t => if jsTruthy t then some t else jsGetProp doc "@timestamp"
    | none => jsGetProp doc "@timestamp"
  let doc2 :=
    if opType = some "create" then
      match date with
      | some d => jsSetProp doc "@timestamp" d
      | none => jsSetProp doc "@timestamp" Json.null
    else doc
  (doc2, getIndexName env idx date)

/-- Outcome of the split mapper on one input line: the value returned to the
stream (`none` when the mapper returns `undefined`), the events emitted on
the stream (event name, line, reason), and the lines written to the console,
or the exception the mapper threw. -/
structure MapOut where
  result : Except JsErr (Option Json)
  events : List (String × String × String)
  logs : List String

/-- Packaging of the final `return mergeDeep(value, opts.additionalObject)`
of the mapper of `part_000`. -/
def mergeResult (value : Json) (additional : Option Json) : MapOut :=
  match mergeDeepTop value additional with
  | .ok v => ⟨.ok (some v), [], []⟩
  | .error e => ⟨.error e, [], []⟩

/-- The expression `value.msg || "-"` of the object branch: the `msg`
property value when truthy, the placeholder dash otherwise (also when the
property is absent, `undefined` being falsy). -/
def msgOrDash (value : Json) : Json :=
  match jsGetProp value "msg" with
  | some m => if jsTruthy m then m else Json.str "-"
  | none => Json.str "-"

/-- Tail of the object branch of the `part_000` mapper, after the `message`
and `msg` handling: `@timestamp` is recomputed unconditionally by
`setDateTimeString` (whose exception propagates out of the mapper), the
`time` property is deleted when truthy, and the result is deep-merged with
`opts.additionalObject`. -/
def objBranchTail (env : Env) (add : Option Json) (v2 : Json) : MapOut :=
  match setDateTimeString env v2 with
  | .error e => ⟨.error e, [], []⟩
  | .ok ts =>
    let v3 := jsSetProp v2 "@timestamp" (.str ts)
    let v4 :=
      if (jsGetProp v3 "time").elim false jsTruthy
      then jsDeleteProp v3 "time" else v3
    mergeResult v4 add

/-- The object branch of the `part_000` mapper: `message` is set to
`value.msg || "-"`, `msg` is deleted when truthy, then the tail runs. -/
def objBranch (env : Env) (add : Option Json) (value : Json) : MapOut :=
  let v1 := jsSetProp value "message" (msgOrDash value)
  let v2 :=
    if (jsGetProp v1 "msg").elim false jsTruthy
    then jsDeleteProp v1 "msg" else v1
  objBranchTail env add v2

/-- The split mapper of `part_000` on one line. `parsed` is the outcome of
`JSON.parse(line)` (`none` when the parse threw): on a parse failure the raw
line goes to the console and nothing is forwarded (the `unknown` emit in the
catch block is commented out in the source); a boolean or `null` value emits
one `unknown` event; a non-`typeof`-object scalar is wrapped as a document
holding `data` and `@timestamp` and deep-merged with
`opts.additionalObject`; every other value runs the object branch. -/
def mapLine (env : Env) (additional : Option Json) (line : String) (parsed : Option Json) :
    MapOut :=
  match parsed with
  | none => ⟨.ok none, [], [line]⟩
  | some value =>
    match value with
    | .bool _ => ⟨.ok none, [("unknown", line, "Boolean value ignored")], []⟩
    | .null => ⟨.ok none, [("unknown", line, "Null value ignored")], []⟩
    | _ =>
      if typeofObject value = false then
        match setDateTimeString env value with
        | .error e => ⟨.error e, [], []⟩
        | .ok ts => mergeResult (Json.obj [("data", value), ("@timestamp", .str ts)]) additional
      else
        objBranch env additional value

/-- The split mapper of `src/lib.js` on one line. Same classification as
`mapLine`, but the object branch only fills `@timestamp` when it is absent,
never touches `msg`, `message` or `time`, and no merge is performed. -/
def mapLineLib (env : Env) (line : String) (parsed : Option Json) : MapOut :=
  match parsed with
  | none => ⟨.ok none, [], [line]⟩
  | some value =>
    match value with
    | .bool _ => ⟨.ok none, [("unknown", line, "Boolean value ignored")], []⟩
    | .null => ⟨.ok none, [("unknown", line, "Null value ignored")], []⟩
    | _ =>
      if typeofObject value = false then
        match setDateTimeString env value with
        | .error e => ⟨.error e, [], []⟩
        | .ok ts => ⟨.ok (some (Json.obj [("data", value), ("@timestamp", .str ts)])), [], []⟩
      else
        if (jsGetProp value "@timestamp").isNone then
          match setDateTimeString env value with
          | .error e => ⟨.error e, [], []⟩
          | .ok ts => ⟨.ok (some (jsSetProp value "@timestamp" (.str ts))), [], []⟩
        else ⟨.ok (some value), [], []⟩

/-- The options record handed to `pinoElasticSearch`. Only the fields the
embedded code reads are carried; `rejectUnauthorized` is the flag the
entrypoint computes from `LOG_ES_REJECT_UNAUTHORIZED`. -/
structure Opts where
  node : Option Json
  auth : Option Json
  caFingerprint : Option Json
  connection : Option Json
  connectionPool : Option Json
  rejectUnauthorized : Option Bool
  additionalObject : Option Json
  index : Option IndexCfg
  opType : Option String

/-- TLS section of the Elasticsearch client options. -/
structure TlsConfig where
  rejectUnauthorized : Bool

/-- The Elasticsearch client options `clientOpts`, identical in both source
files. -/
structure ClientOpts where
  node : Option Json
  auth : Option Json
  tls : TlsConfig
  caFingerprint : Option Json
  connection : Option Json
  connectionPool : Option Json

/-- Construction of `clientOpts` in `pinoElasticSearch`: node and auth are
copied, `tls.rejectUnauthorized` is the literal `false`, and the three
optional fields are attached only when truthy. `opts.rejectUnauthorized`
is never read. -/
def buildClientOpts (o : Opts) : ClientOpts :=
  ⟨o.node, o.auth, ⟨false⟩,
    if (o.caFingerprint.elim false jsTruthy) then o.caFingerprint else none,
    if (o.connection.elim false jsTruthy) then o.connection else none,
    if (o.connectionPool.elim false jsTruthy) then o.connectionPool else none⟩


/-- Concrete host environment for closed statements: the clock reads 12345
milliseconds past the epoch and no string is date-parseable (the strings
fed to it below, such as "x", are parseable on no engine). -/
def envA : Env := ⟨12345, fun _ => none⟩

/-- Concrete host environment whose parser knows exactly the ISO instant
used by the scenario of the specification (the value is
`Date.parse("2024-01-01T00:00:00.000Z")`). -/
def envW : Env :=
  ⟨0, fun s => if s = "2024-01-01T00:00:00.000Z" then some 1704067200000 else none⟩

theorem objGet_eq_none_iff (l : List (String × Json)) (k : String) :
    objGet l k = none ↔ k ∉ objKeys l := by
  induction l with
  | nil => simp [objGet, objKeys]
  | cons p rest ih =>
    obtain ⟨a, b⟩ := p
    by_cases h : a = k <;> simp [objGet, objKeys, h, ih]
    tauto

theorem objSet_of_get_none (l : List (String × Json)) (k : String) (v : Json)
    (h : objGet l k = none) : objSet l k v = l ++ [(k, v)] := by
  induction l with
  | nil => simp [objSet]
  | cons p rest ih =>
    obtain ⟨a, b⟩ := p
    by_cases hak : a = k
    · simp [objGet, hak] at h
    · simp [objGet, hak] at h
      simp [objSet, hak, ih h]

theorem objGet_append (l1 l2 : List (String × Json)) (k : String) :
    objGet (l1 ++ l2) k = ((objGet l1 k).rec (objGet l2 k) (fun v => some v)) := by
  induction l1 with
  | nil => simp [objGet]
  | cons p rest ih =>
    obtain ⟨a, b⟩ := p
    by_cases hak : a = k <;> simp [objGet, hak, ih]

theorem mergeFold_append (fs : List (String × Json)) :
    ∀ acc, (∀ k, k ∈ objKeys fs → objGet acc k = none) → (objKeys fs).Nodup →
    mergeFold acc fs = acc ++ fs := by
  induction fs with
  | nil => intro acc _ _; simp [mergeFold]
  | cons p rest ih =>
    intro acc h1 h2
    obtain ⟨k, v⟩ := p
    have hacc : objGet acc k = none := h1 k (by simp [objKeys])
    have hrest : ∀ k2, k2 ∈ objKeys rest → objGet (acc ++ [(k, v)]) k2 = none := by
      intro k2 hk2
      have hne : k2 ≠ k := by
        simp [objKeys] at h2 hk2
        rcases hk2 with ⟨b2, hb2⟩
        intro he
        exact h2.1 b2 (he ▸ hb2)
      have : objGet acc k2 = none := h1 k2 (by simp [objKeys]; simp [objKeys] at hk2; tauto)
      simp [objGet_append, this, objGet, hne, Ne.symm hne]
    have h2r : (objKeys rest).Nodup := by
      simp [objKeys] at h2 ⊢
      exact h2.2
    calc mergeFold acc ((k, v) :: rest)
        = mergeFold (objSet acc k v) rest := by
          rw [mergeFold]
          simp [hacc]
      _ = mergeFold (acc ++ [(k, v)]) rest := by rw [objSet_of_get_none acc k v hacc]
      _ = (acc ++ [(k, v)]) ++ rest := ih (acc ++ [(k, v)]) hrest h2r
      _ = acc ++ ((k, v) :: rest) := by simp

theorem mergeFold_copy (fs : List (String × Json)) (h : (objKeys fs).Nodup) :
    mergeFold [] fs = fs := by
  have := mergeFold_append fs [] (fun k _ => by simp [objGet]) h
  simpa using this

theorem mergeDeepTop_emptyAdd (fs : List (String × Json)) (h : (objKeys fs).Nodup) :
    mergeDeepTop (.obj fs) (some (.obj [])) = .ok (.obj fs) := by
  simp [mergeDeepTop, mergeDeep2, jsEnumProps, mergeFold, mergeFold_copy fs h]

theorem mergeResult_emptyAdd (fs : List (String × Json)) (h : (objKeys fs).Nodup) :
    mergeResult (.obj fs) (some (.obj [])) = ⟨.ok (some (.obj fs)), [], []⟩ := by
  simp [mergeResult, mergeDeepTop_emptyAdd fs h]


theorem objGet_objSet_self (fs : List (String × Json)) (k : String) (v : Json) :
    objGet (objSet fs k v) k = some v := by
  induction fs with
  | nil => simp [objSet, objGet]
  | cons p rest ih =>
    obtain ⟨a, b⟩ := p
    by_cases hak : a = k <;> simp [objSet, objGet, hak, ih]

theorem objGet_objSet_ne (fs : List (String × Json)) (k k2 : String) (v : Json)
    (h : k2 ≠ k) : objGet (objSet fs k v) k2 = objGet fs k2 := by
  induction fs with
  | nil => simp [objSet, objGet, Ne.symm h]
  | cons p rest ih =>
    obtain ⟨a, b⟩ := p
    by_cases hak : a = k
    · subst hak
      simp [objSet, objGet, Ne.symm h]
    · by_cases hak2 : a = k2 <;> simp [objSet, objGet, hak, hak2, h, ih]

theorem objDelete_sublist (fs : List (String × Json)) (k : String) :
    (objDelete fs k).Sublist fs := by
  induction fs with
  | nil => simp [objDelete]
  | cons p rest ih =>
    obtain ⟨a, b⟩ := p
    by_cases hak : a = k
    · simp only [objDelete, if_pos hak]
      exact List.sublist_cons_self (a, b) rest
    · simp only [objDelete, if_neg hak]
      exact List.Sublist.cons₂ (a, b) ih

theorem objGet_objDelete_ne (fs : List (String × Json)) (k k2 : String)
    (h : k2 ≠ k) : objGet (objDelete fs k) k2 = objGet fs k2 := by
  induction fs with
  | nil => simp [objDelete]
  | cons p rest ih =>
    obtain ⟨a, b⟩ := p
    by_cases hak : a = k
    · subst hak
      simp [objDelete, objGet, Ne.symm h]
    · by_cases hak2 : a = k2 <;> simp [objDelete, objGet, hak, hak2, h, ih]

theorem objGet_objDelete_self (fs : List (String × Json)) (k : String)
    (h : (objKeys fs).Nodup) : objGet (objDelete fs k) k = none := by
  induction fs with
  | nil => simp [objDelete, objGet]
  | cons p rest ih =>
    obtain ⟨a, b⟩ := p
    simp [objKeys] at h
    by_cases hak : a = k
    · subst hak
      simp [objDelete]
      rw [objGet_eq_none_iff]
      simp [objKeys]
      intro v hv
      exact h.1 v hv
    · simp [objDelete, objGet, hak, ih h.2]

theorem mem_objKeys_objSet (fs : List (String × Json)) (k k2 : String) (v : Json)
    (h : k2 ∈ objKeys (objSet fs k v)) : k2 ∈ objKeys fs ∨ k2 = k := by
  induction fs with
  | nil => simp [objSet, objKeys] at h; tauto
  | cons p rest ih =>
    obtain ⟨a, b⟩ := p
    by_cases hak : a = k
    · subst hak
      simp [objSet, objKeys] at h ⊢
      tauto
    · simp only [objSet, if_neg hak, objKeys, List.map_cons, List.mem_cons] at h ⊢
      rcases h with h | h
      · tauto
      · rcases ih h with h2 | h2
        · tauto
        · tauto

theorem nodup_objSet (fs : List (String × Json)) (k : String) (v : Json)
    (h : (objKeys fs).Nodup) : (objKeys (objSet fs k v)).Nodup := by
  induction fs with
  | nil => simp [objSet, objKeys]
  | cons p rest ih =>
    obtain ⟨a, b⟩ := p
    simp [objKeys] at h
    by_cases hak : a = k
    · subst hak
      simp [objSet, objKeys]
      constructor
      · intro v2 hv2
        exact h.1 v2 hv2
      · exact h.2
    · simp [objSet, objKeys, hak]
      constructor
      · intro v2 hv2
        rcases mem_objKeys_objSet rest k a v (by simp [objKeys]; exact ⟨v2, hv2⟩) with h2 | h2
        · simp [objKeys] at h2
          rcases h2 with ⟨b2, hb2⟩
          exact h.1 b2 hb2
        · exact hak h2
      · exact ih h.2

theorem nodup_objDelete (fs : List (String × Json)) (k : String)
    (h : (objKeys fs).Nodup) : (objKeys (objDelete fs k)).Nodup := by
  have hs : (objKeys (objDelete fs k)).Sublist (objKeys fs) :=
    List.Sublist.map Prod.fst (objDelete_sublist fs k)
  exact List.Nodup.sublist hs h


/-- C10: for every options value, the Elasticsearch client options carry
`tls.rejectUnauthorized = false`, regardless of every field of the options —
in particular `opts.rejectUnauthorized` (the flag the entrypoint derives
from `LOG_ES_REJECT_UNAUTHORIZED`) is never consulted. -/
theorem c10_theorem (o : Opts) :
    (buildClientOpts o).tls.rejectUnauthorized = false := rfl

/-- C9: a line decoding to a boolean or to null makes the mapper emit
exactly one `unknown` event with the corresponding reason and forward no
document, in both mapper variants. -/
theorem c9_theorem (env : Env) (additional : Option Json) (line : String) (b : Bool) :
    mapLine env additional line (some (.bool b))
        = ⟨.ok none, [("unknown", line, "Boolean value ignored")], []⟩
    ∧ mapLine env additional line (some .null)
        = ⟨.ok none, [("unknown", line, "Null value ignored")], []⟩
    ∧ mapLineLib env line (some (.bool b))
        = ⟨.ok none, [("unknown", line, "Boolean value ignored")], []⟩
    ∧ mapLineLib env line (some .null)
        = ⟨.ok none, [("unknown", line, "Null value ignored")], []⟩ :=
  ⟨rfl, rfl, rfl, rfl⟩

/-- C2 counterexample: on a line that fails to parse, the mapper emits no
event at all — the claimed single Anomaly with reason "invalid JSON" does
not exist; the `unknown` emit in the catch block is commented out in both
source files. -/
theorem c2_counterexample :
    (mapLine envA (some (Json.obj [])) "not json" none).events = []
    ∧ (mapLineLib envA "not json" none).events = [] := ⟨rfl, rfl⟩

/-- C2 as amended: for every line that is not parseable as JSON, the mapper
forwards no document and emits no event; the raw line is written to the
console diagnostic output instead. Both variants behave identically. -/
theorem c2_theorem (env : Env) (additional : Option Json) (line : String) :
    mapLine env additional line none = ⟨.ok none, [], [line]⟩
    ∧ mapLineLib env line none = ⟨.ok none, [], [line]⟩ := ⟨rfl, rfl⟩

/-- C1: the mapper can throw out of the pipeline on well-formed object
input. In the `part_000` variant, any object line thrown at an options
record without `additionalObject` (for example the default `opts = {}` of
`pinoElasticSearch`) reaches `Object.keys(undefined)` inside `mergeDeep`
and throws a TypeError; in the `lib.js` variant, an object whose `time`
field is a non-empty string that no engine parses as a date reaches
`new Date("x").toISOString()` and throws a RangeError. -/
theorem c1_theorem :
    mapLine envA none "\x7b\x22a\x22:1\x7d" (some (.obj [("a", .num 1)]))
      = ⟨.error .typeError, [], []⟩
    ∧ mapLineLib envA "\x7b\x22time\x22:\x22x\x22\x7d" (some (.obj [("time", .str "x")]))
      = ⟨.error .rangeError, [], []⟩ := ⟨rfl, rfl⟩

/-- Timestamp computation rule as amended (the spec side of C5): on `null`,
property access throws a TypeError; on an object whose `time` is a
non-empty string, the result is the ISO form of the parsed time value when
the string parses to a valid time value and a RangeError throw otherwise;
on an object whose `time` is a non-negative number, the result is the ISO
form of that number when it does not exceed the maximal time value and a
RangeError throw otherwise; in every other case the current instant is
returned. -/
def setDateTimeSpec (env : Env) : Json → Except JsErr String
  | .null => .error .typeError
  | .obj fields =>
    match objGet fields "time" with
    | some (.str s) =>
      if s.length = 0 then .ok (isoString env.nowMs)
      else
        match env.dateParse s with
        | some t =>
          if t.natAbs ≤ 8640000000000000 then .ok (isoString t) else .error .rangeError
        | none => .error .rangeError
    | some (.num n) =>
      if n < 0 then .ok (isoString env.nowMs)
      else if n ≤ timeValueMax then .ok (isoString n) else .error .rangeError
    | _ => .ok (isoString env.nowMs)
  | _ => .ok (isoString env.nowMs)

/-- C5 counterexample: `8640000000000001` is a non-negative number, so the
claim promises the ISO-8601 instant of the `time` value, but the code
throws a RangeError (the value exceeds the maximal ECMAScript time value,
so `toISOString` is applied to an Invalid Date). -/
theorem c5_counterexample :
    (0 : Int) ≤ 8640000000000001
    ∧ setDateTimeString envA (.obj [("time", .num 8640000000000001)])
        = .error .rangeError :=
  ⟨by norm_num, rfl⟩

/-- C5 as amended: `setDateTimeString` coincides everywhere with the amended
rule `setDateTimeSpec`. -/
theorem c5_theorem (env : Env) (v : Json) :
    setDateTimeString env v = setDateTimeSpec env v := by
  cases v with
  | obj fields =>
    simp only [setDateTimeString, setDateTimeSpec]
    cases hg : objGet fields "time" with
    | none => rfl
    | some tv =>
      cases tv with
      | str s =>
        by_cases hs : s.length = 0
        · simp [hs, jsToISO]
        · simp only [hs, bne_iff_ne, ne_eq, not_false_eq_true, if_true, if_false]
          cases hp : env.dateParse s <;> simp [jsToISO]
      | num n =>
        rcases lt_or_ge n 0 with hn | hn
        · have h1 : ¬ 0 ≤ n := by omega
          simp [h1, hn]
        · have h2 : ¬ n < 0 := by omega
          by_cases hm : n ≤ (8640000000000000 : Int)
          · have h3 : n.natAbs ≤ 8640000000000000 := by omega
            simp [hn, h2, hm, h3, jsToISO, timeValueMax]
          · have h3 : ¬ n.natAbs ≤ 8640000000000000 := by omega
            simp [hn, h2, hm, h3, jsToISO, timeValueMax]
      | _ => rfl
  | _ => rfl


theorem substScan_no_dollar (matched before after : List Char) :
    ∀ l : List Char, Char.ofNat 36 ∉ l → substScan matched before after l = l := by
  intro l
  induction l with
  | nil => intro _; rfl
  | cons c rest ih =>
    intro h
    have hc : ¬ c = Char.ofNat 36 := fun he => (List.ne_of_not_mem_cons h) he.symm
    have hr := List.not_mem_of_not_mem_cons h
    rw [substScan.eq_def]
    simp [hc, ih hr]

theorem jsReplaceFirst_literal (s pat repl : String)
    (h : Char.ofNat 36 ∉ repl.data) :
    jsReplaceFirst s pat repl = literalReplaceFirst s pat repl := by
  unfold jsReplaceFirst literalReplaceFirst
  cases hf : findFrom pat.data s.data with
  | none => rfl
  | some i =>
    show String.mk (s.data.take i
        ++ substScan pat.data (s.data.take i) (s.data.drop (i + pat.data.length)) repl.data
        ++ s.data.drop (i + pat.data.length))
      = String.mk (s.data.take i ++ repl.data ++ s.data.drop (i + pat.data.length))
    rw [substScan_no_dollar _ _ _ _ h]

/-- C6 counterexample: the claim promises that the placeholder is replaced
by the first 10 characters of the timestamp, but `String.prototype.replace`
processes dollar patterns in the replacement text: with timestamp
"$&23456789" the dollar-ampersand expands to the matched placeholder and
the result differs from the claimed verbatim splice. -/
theorem c6_counterexample :
    getIndexName envA (.template "logs-%\x7bDATE\x7d") (some (.str "$&23456789"))
      = .ok "logs-%\x7bDATE\x7d23456789"
    ∧ "logs-%\x7bDATE\x7d23456789" ≠ "logs-$&23456789" := ⟨rfl, by decide⟩

/-- C6 as amended: on a template, a string timestamp whose first 10
characters hold no dollar sign has those characters spliced verbatim for
the first occurrence of the placeholder (so the specification example
holds); a numeric (or any non-string, non-null) timestamp substitutes the
empty string; a null timestamp throws a TypeError on the `substring`
property read. -/
theorem c6_theorem (env : Env) (tpl : String) :
    (∀ ts : String, Char.ofNat 36 ∉ (ts.take 10).data →
        getIndexName env (.template tpl) (some (.str ts))
          = .ok (literalReplaceFirst tpl "%\x7bDATE\x7d" (ts.take 10)))
    ∧ (∀ n : Int, getIndexName env (.template tpl) (some (.num n))
          = .ok (literalReplaceFirst tpl "%\x7bDATE\x7d" ""))
    ∧ getIndexName env (.template tpl) (some .null) = .error .typeError := by
  refine ⟨?_, ?_, rfl⟩
  · intro ts h
    simp [getIndexName, jsReplaceFirst_literal _ _ _ h]
  · intro n
    simp [getIndexName, jsReplaceFirst_literal _ _ "" (by simp)]

/-- C6 witness: the specification example, through the amended theorem:
template "logs-%\x7bDATE\x7d" and timestamp "2024-03-05T10:00:00.000Z" resolve
to "logs-2024-03-05". -/
theorem c6_witness :
    getIndexName envA (.template "logs-%\x7bDATE\x7d")
        (some (.str "2024-03-05T10:00:00.000Z")) = .ok "logs-2024-03-05" := by
  have h := (c6_theorem envA "logs-%\x7bDATE\x7d").1 "2024-03-05T10:00:00.000Z" (by decide)
  rw [h]
  rfl

/-- C4 counterexample: with operation type `create` and a document holding
`time` "A" and `@timestamp` "B", the handler merely overwrites `@timestamp`
with "A": the resulting document consists of exactly the fields `time` "A"
and `@timestamp` "A", so the original `@timestamp` value "B" is preserved
under no field — no renamed field exists. -/
theorem c4_counterexample :
    (onDocument envA (some "create") (.template "pino")
        (.obj [("time", .str "A"), ("@timestamp", .str "B")])).1
      = .obj [("time", .str "A"), ("@timestamp", .str "A")]
    ∧ ∀ p ∈ [("time", Json.str "A"), ("@timestamp", Json.str "A")],
        p.2 ≠ Json.str "B" := by
  refine ⟨rfl, ?_⟩
  intro p hp
  simp only [List.mem_cons, List.not_mem_nil, or_false] at hp
  rcases hp with h | h
  · subst h
    intro hc
    injection hc with hs
    exact absurd hs (by decide)
  · subst h
    intro hc
    injection hc with hs
    exact absurd hs (by decide)

/-- C4 as amended: with operation type `create` and a truthy `time` field,
the per-document handler sets `@timestamp` to that `time` value and
performs no other write — the result is exactly the `@timestamp` update of
the input — so the prior `@timestamp` value is discarded and no renamed
field preserves it. -/
theorem c4_theorem (env : Env) (idx : IndexCfg) (doc : Json) (t : Json)
    (ht : jsGetProp doc "time" = some t) (htr : jsTruthy t = true) :
    (onDocument env (some "create") idx doc).1 = jsSetProp doc "@timestamp" t := by
  simp [onDocument, ht, htr]

/-- C4 witness: the amended theorem at the concrete document of the
counterexample. -/
theorem c4_witness :
    (onDocument envA (some "create") (.template "pino")
        (.obj [("time", .str "A"), ("@timestamp", .str "B")])).1
      = jsSetProp (.obj [("time", .str "A"), ("@timestamp", .str "B")])
          "@timestamp" (.str "A") :=
  c4_theorem envA (.template "pino") _ _ rfl rfl


theorem spreadElem_of_not_arr (x : Json) (h : isArr x = false) : spreadElem x = [x] := by
  cases x
  case arr => simp [isArr] at h
  all_goals rfl

theorem spreadList_id (o : List Json) (h : ∀ e ∈ o, isArr e = false) :
    spreadList o = o := by
  induction o with
  | nil => rfl
  | cons x rest ih =>
    have h1 : isArr x = false := h x (by simp)
    have h2 : ∀ e ∈ rest, isArr e = false := fun e he => h e (by simp [he])
    simp [spreadList, spreadElem_of_not_arr x h1, ih h2]

theorem isObjectB_of_isArr (v : Json) (h : isArr v = true) : isObjectB v = true := by
  cases v <;> simp [isArr, isObjectB] at h ⊢

theorem mergeDeep2_single (k : String) (a b : Json) :
    mergeDeep2 (.obj [(k, a)]) (.obj [(k, b)])
      = .obj [(k,
          if isArr a && isArr b then Json.arr (arrElems a ++ spreadList (arrElems b))
          else if isObjectB a && isObjectB b then
            Json.obj (mergeFold (jsEnumProps a) (jsEnumProps b))
          else b)] := by
  simp [mergeDeep2, mergeFold, jsEnumProps, objGet, objSet]

/-- C7 counterexample: the claim promises array concatenation, but
`concat(...oVal)` spreads the later array, splicing its array elements one
level: merging a key holding `[0]` with the same key holding `[[1, 2]]`
yields `[0, 1, 2]`, not the concatenation `[0, [1, 2]]`. -/
theorem c7_counterexample :
    mergeDeep2 (.obj [("list", .arr [.num 0])])
        (.obj [("list", .arr [.arr [.num 1, .num 2]])])
      = .obj [("list", .arr [.num 0, .num 1, .num 2])]
    ∧ mergeDeep2 (.obj [("list", .arr [.num 0])])
        (.obj [("list", .arr [.arr [.num 1, .num 2]])])
      ≠ .obj [("list", .arr [.num 0, .arr [.num 1, .num 2]])] := by
  have h1 : mergeDeep2 (.obj [("list", .arr [.num 0])])
      (.obj [("list", .arr [.arr [.num 1, .num 2]])])
      = .obj [("list", .arr [.num 0, .num 1, .num 2])] := by
    simp [mergeDeep2, mergeFold, jsEnumProps, objGet, objSet, isArr, arrElems,
      spreadList, spreadElem]
  refine ⟨h1, ?_⟩
  rw [h1]
  intro hc
  injection hc with hfs
  simp at hfs

/-- C7 as amended: the merge is recursive for nested mappings and
overwriting whenever one side fails the `isObject` test; on two array
values it appends the later array with its array elements spliced one
level (`spreadList`), which is plain concatenation exactly when the later
array holds no array element; the specification example, which has no
nested array, holds as stated. -/
theorem c7_theorem :
    (mergeDeep2
        (.obj [("a", .obj [("b", .num 1)]), ("list", .arr [.num 1, .num 2])])
        (.obj [("a", .obj [("c", .num 2)]), ("list", .arr [.num 3])])
      = .obj [("a", .obj [("b", .num 1), ("c", .num 2)]),
              ("list", .arr [.num 1, .num 2, .num 3])])
    ∧ (∀ (k : String) (p o : List Json), (∀ e ∈ o, isArr e = false) →
        mergeDeep2 (.obj [(k, .arr p)]) (.obj [(k, .arr o)])
          = .obj [(k, .arr (p ++ o))])
    ∧ (∀ (k : String) (p o : List Json),
        mergeDeep2 (.obj [(k, .arr p)]) (.obj [(k, .arr o)])
          = .obj [(k, .arr (p ++ spreadList o))])
    ∧ (∀ (k : String) (fsa fsb : List (String × Json)), (objKeys fsa).Nodup →
        mergeDeep2 (.obj [(k, .obj fsa)]) (.obj [(k, .obj fsb)])
          = .obj [(k, mergeDeep2 (.obj fsa) (.obj fsb))])
    ∧ (∀ (k : String) (a b : Json), (isObjectB a && isObjectB b) = false →
        mergeDeep2 (.obj [(k, a)]) (.obj [(k, b)]) = .obj [(k, b)]) := by
  refine ⟨?_, ?_, ?_, ?_, ?_⟩
  · simp [mergeDeep2, mergeFold, jsEnumProps, objGet, objSet, isArr, arrElems,
      isObjectB, spreadList, spreadElem]
  · intro k p o h
    rw [mergeDeep2_single]
    simp [isArr, arrElems, spreadList_id o h]
  · intro k p o
    rw [mergeDeep2_single]
    simp [isArr, arrElems]
  · intro k fsa fsb hnd
    rw [mergeDeep2_single]
    simp [isArr, isObjectB, jsEnumProps, mergeDeep2, mergeFold_copy fsa hnd]
  · intro k a b h
    have harr : (isArr a && isArr b) = false := by
      rcases ha : isArr a with _ | _
      · simp
      · rcases hb : isArr b with _ | _
        · simp
        · rw [isObjectB_of_isArr a ha, isObjectB_of_isArr b hb] at h
          simp at h
    rw [mergeDeep2_single, harr, h]
    simp

/-- C7 witness: the array conjunct of the amended theorem at the
specification example lists. -/
theorem c7_witness :
    mergeDeep2 (.obj [("list", .arr [.num 1, .num 2])])
        (.obj [("list", .arr [.num 3])])
      = .obj [("list", .arr [.num 1, .num 2, .num 3])] := by
  refine c7_theorem.2.1 "list" [.num 1, .num 2] [.num 3] ?_
  intro e he
  simp at he
  subst he
  rfl


/-- The ISO-8601 form of a JavaScript time argument, when it denotes a
valid instant: a non-empty string must parse to an in-range time value, a
number must be non-negative and in range. Used to state C3. -/
def isoOfTimeValue (env : Env) : Json → Option String
  | .str s =>
    if s.length = 0 then none
    else (env.dateParse s).bind
      (fun t => if t.natAbs ≤ 8640000000000000 then some (isoString t) else none)
  | .num n => if 0 ≤ n ∧ n.natAbs ≤ 8640000000000000 then some (isoString n) else none
  | _ => none

theorem setDateTimeString_congr (env : Env) (fs1 fs2 : List (String × Json))
    (h : objGet fs1 "time" = objGet fs2 "time") :
    setDateTimeString env (.obj fs1) = setDateTimeString env (.obj fs2) := by
  simp only [setDateTimeString, h]

theorem setDateTimeString_of_iso (env : Env) (fs : List (String × Json))
    (tv : Json) (iso : String)
    (ht : objGet fs "time" = some tv) (htr : jsTruthy tv = true)
    (hiso : isoOfTimeValue env tv = some iso) :
    setDateTimeString env (.obj fs) = .ok iso := by
  cases tv with
  | str s =>
    by_cases hs : s.length = 0
    · simp [jsTruthy, hs] at htr
    · simp only [isoOfTimeValue, hs, if_false, ite_false] at hiso
      cases hp : env.dateParse s with
      | none => rw [hp] at hiso; simp at hiso
      | some t =>
        rw [hp] at hiso
        simp only [Option.some_bind] at hiso
        by_cases hm : t.natAbs ≤ 8640000000000000
        · rw [if_pos hm] at hiso
          have hi : iso = isoString t := by
            injection hiso with h2
            exact h2.symm
          subst hi
          simp [setDateTimeString, ht, hs, jsToISO, hp, hm]
        · rw [if_neg hm] at hiso
          cases hiso
  | num n =>
    simp only [isoOfTimeValue] at hiso
    by_cases hr : 0 ≤ n ∧ n.natAbs ≤ 8640000000000000
    · rw [if_pos hr] at hiso
      have hi : iso = isoString n := by
        injection hiso with h2
        exact h2.symm
      subst hi
      simp [setDateTimeString, ht, hr.1, jsToISO, hr.2]
    · rw [if_neg hr] at hiso
      cases hiso
  | null => simp [isoOfTimeValue] at hiso
  | bool b => simp [isoOfTimeValue] at hiso
  | arr xs => simp [isoOfTimeValue] at hiso
  | obj fs2 => simp [isoOfTimeValue] at hiso




theorem objBranchTail_ok (env : Env) (add : Option Json) (fs2 : List (String × Json))
    (ts : String) (hset : setDateTimeString env (.obj fs2) = .ok ts) :
    objBranchTail env add (.obj fs2)
      = mergeResult (.obj
          (if (objGet (objSet fs2 "@timestamp" (.str ts)) "time").elim false jsTruthy
           then objDelete (objSet fs2 "@timestamp" (.str ts)) "time"
           else objSet fs2 "@timestamp" (.str ts))) add := by
  simp only [objBranchTail, hset, jsSetProp, jsGetProp, jsDeleteProp]
  rw [apply_ite Json.obj]

theorem objBranch_obj (env : Env) (add : Option Json) (fs : List (String × Json)) :
    objBranch env add (.obj fs)
      = objBranchTail env add (.obj
          (if (objGet (objSet fs "message" (msgOrDash (.obj fs))) "msg").elim false jsTruthy
           then objDelete (objSet fs "message" (msgOrDash (.obj fs))) "msg"
           else objSet fs "message" (msgOrDash (.obj fs)))) := by
  simp only [objBranch, jsSetProp, jsGetProp, jsDeleteProp]
  rw [apply_ite Json.obj]

/-- C3 counterexample: a `time` field holding the number 0 is converted to
its ISO-8601 form, but `delete value.time` is guarded by truthiness and 0
is falsy, so the raw `time` field remains in the final document, against
the claim. -/
theorem c3_counterexample :
    mapLine envA (some (Json.obj [])) "t" (some (.obj [("time", .num 0)]))
      = ⟨.ok (some (.obj [("time", .num 0), ("message", .str "-"),
          ("@timestamp", .str "1970-01-01T00:00:00.000Z")])), [], []⟩
    ∧ objGet [("time", Json.num 0), ("message", Json.str "-"),
        ("@timestamp", Json.str "1970-01-01T00:00:00.000Z")] "time" ≠ none := by
  constructor
  · have h : mapLine envA (some (Json.obj [])) "t" (some (.obj [("time", .num 0)]))
        = mergeResult (.obj [("time", .num 0), ("message", .str "-"),
            ("@timestamp", .str "1970-01-01T00:00:00.000Z")]) (some (.obj [])) := rfl
    rw [h, mergeResult_emptyAdd _ (by decide)]
  · intro hc
    simp [objGet] at hc

/-- C3 as amended: for an object line whose `time` field is truthy and
denotes a valid instant (non-empty parseable string or positive in-range
number), with the entrypoint default empty `additionalObject`, the final
document carries the ISO-8601 form of the `time` value at `@timestamp` and
no `time` field; when `time` is falsy (the number 0, the empty string) the
raw field survives deletion. -/
theorem c3_theorem (env : Env) (line : String) (fs : List (String × Json))
    (tv : Json) (iso : String)
    (hnd : (objKeys fs).Nodup)
    (ht : objGet fs "time" = some tv)
    (htr : jsTruthy tv = true)
    (hiso : isoOfTimeValue env tv = some iso) :
    ∃ d, mapLine env (some (.obj [])) line (some (.obj fs))
        = ⟨.ok (some (.obj d)), [], []⟩
      ∧ objGet d "@timestamp" = some (.str iso)
      ∧ objGet d "time" = none := by
  have hml : mapLine env (some (.obj [])) line (some (.obj fs))
      = objBranch env (some (.obj [])) (.obj fs) := rfl
  rw [hml, objBranch_obj]
  set fs1 := objSet fs "message" (msgOrDash (.obj fs)) with hfs1
  set fs2 := (if (objGet fs1 "msg").elim false jsTruthy
    then objDelete fs1 "msg" else fs1) with hfs2
  have hnd1 : (objKeys fs1).Nodup := nodup_objSet _ _ _ hnd
  have h1t : objGet fs1 "time" = some tv := by
    rw [hfs1, objGet_objSet_ne _ _ _ _ (by decide)]
    exact ht
  have hnd2 : (objKeys fs2).Nodup := by
    rw [hfs2]
    split
    · exact nodup_objDelete _ _ hnd1
    · exact hnd1
  have h2t : objGet fs2 "time" = some tv := by
    rw [hfs2]
    split
    · rw [objGet_objDelete_ne _ _ _ (by decide)]
      exact h1t
    · exact h1t
  have hset : setDateTimeString env (.obj fs2) = .ok iso :=
    setDateTimeString_of_iso env fs2 tv iso h2t htr hiso
  rw [objBranchTail_ok env _ fs2 iso hset]
  set fs3 := objSet fs2 "@timestamp" (.str iso) with hfs3
  have h3t : objGet fs3 "time" = some tv := by
    rw [hfs3, objGet_objSet_ne _ _ _ _ (by decide)]
    exact h2t
  have hnd3 : (objKeys fs3).Nodup := by
    rw [hfs3]
    exact nodup_objSet _ _ _ hnd2
  rw [h3t]
  simp only [Option.elim, htr, if_true]
  rw [mergeResult_emptyAdd _ (nodup_objDelete _ _ hnd3)]
  refine ⟨objDelete fs3 "time", rfl, ?_, ?_⟩
  · rw [objGet_objDelete_ne _ _ _ (by decide), hfs3, objGet_objSet_self]
  · exact objGet_objDelete_self _ _ hnd3

/-- C3 witness: the scenario of the specification, with a host environment
that parses the scenario instant: the document for
msg "hello", time "2024-01-01T00:00:00.000Z" carries that instant at
`@timestamp` and no `time` field. -/
theorem c3_witness :
    ∃ d, mapLine envW (some (Json.obj [])) "w"
        (some (.obj [("msg", .str "hello"), ("time", .str "2024-01-01T00:00:00.000Z")]))
        = ⟨.ok (some (.obj d)), [], []⟩
      ∧ objGet d "@timestamp" = some (.str "2024-01-01T00:00:00.000Z")
      ∧ objGet d "time" = none := by
  refine c3_theorem envW "w" _ (.str "2024-01-01T00:00:00.000Z")
    "2024-01-01T00:00:00.000Z" (by decide) rfl rfl ?_
  rfl


/-- C8 counterexample: a `msg` field holding the falsy number 0 is present,
yet `message` becomes the placeholder dash (the code tests `value.msg`
truthiness, not presence) and `delete value.msg` is skipped for the same
reason, so `msg` survives in the final document — against both parts of
the claim. -/
theorem c8_counterexample :
    mapLine envA (some (Json.obj [])) "x" (some (.obj [("msg", .num 0)]))
      = ⟨.ok (some (.obj [("msg", .num 0), ("message", .str "-"),
          ("@timestamp", .str "1970-01-01T00:00:12.345Z")])), [], []⟩
    ∧ objGet [("msg", Json.num 0), ("message", Json.str "-"),
        ("@timestamp", Json.str "1970-01-01T00:00:12.345Z")] "msg" ≠ none
    ∧ objGet [("msg", Json.num 0), ("message", Json.str "-"),
        ("@timestamp", Json.str "1970-01-01T00:00:12.345Z")] "message"
        ≠ some (Json.num 0) := by
  refine ⟨?_, ?_, ?_⟩
  · have h : mapLine envA (some (Json.obj [])) "x" (some (.obj [("msg", .num 0)]))
        = mergeResult (.obj [("msg", .num 0), ("message", .str "-"),
            ("@timestamp", .str "1970-01-01T00:00:12.345Z")]) (some (.obj [])) := rfl
    rw [h, mergeResult_emptyAdd _ (by decide)]
  · intro hc
    simp [objGet] at hc
  · intro hc
    simp [objGet] at hc

/-- C8 as amended: for an object line whose timestamp computation succeeds,
with the entrypoint default empty `additionalObject`, the final document
carries `message = msg` when `msg` is truthy and the placeholder dash
otherwise (also when `msg` is absent), and the `msg` field is removed
exactly when it is truthy. -/
theorem c8_theorem (env : Env) (line : String) (fs : List (String × Json)) (ts : String)
    (hnd : (objKeys fs).Nodup)
    (hts : setDateTimeString env (.obj fs) = .ok ts) :
    ∃ d, mapLine env (some (.obj [])) line (some (.obj fs))
        = ⟨.ok (some (.obj d)), [], []⟩
      ∧ objGet d "message" = some (msgOrDash (.obj fs))
      ∧ objGet d "msg" =
          (if (objGet fs "msg").elim false jsTruthy then none else objGet fs "msg") := by
  have hml : mapLine env (some (.obj [])) line (some (.obj fs))
      = objBranch env (some (.obj [])) (.obj fs) := rfl
  rw [hml, objBranch_obj]
  set fs1 := objSet fs "message" (msgOrDash (.obj fs)) with hfs1
  have hnd1 : (objKeys fs1).Nodup := nodup_objSet _ _ _ hnd
  have h1msg : objGet fs1 "msg" = objGet fs "msg" := by
    rw [hfs1, objGet_objSet_ne _ _ _ _ (by decide)]
  have h1message : objGet fs1 "message" = some (msgOrDash (.obj fs)) := by
    rw [hfs1, objGet_objSet_self]
  have h1t : objGet fs1 "time" = objGet fs "time" := by
    rw [hfs1, objGet_objSet_ne _ _ _ _ (by decide)]
  rw [h1msg]
  by_cases hc : (objGet fs "msg").elim false jsTruthy = true
  case pos =>
    rw [if_pos hc]
    have hnd2 : (objKeys (objDelete fs1 "msg")).Nodup := nodup_objDelete _ _ hnd1
    have h2message : objGet (objDelete fs1 "msg") "message" = some (msgOrDash (.obj fs)) := by
      rw [objGet_objDelete_ne _ _ _ (by decide)]
      exact h1message
    have h2msg : objGet (objDelete fs1 "msg") "msg" = none :=
      objGet_objDelete_self _ _ hnd1
    have hset : setDateTimeString env (.obj (objDelete fs1 "msg")) = .ok ts := by
      rw [setDateTimeString_congr env _ fs (by rw [objGet_objDelete_ne _ _ _ (by decide)]; exact h1t)]
      exact hts
    rw [objBranchTail_ok env _ _ ts hset]
    set fs3 := objSet (objDelete fs1 "msg") "@timestamp" (.str ts) with hfs3
    have hnd3 : (objKeys fs3).Nodup := by
      rw [hfs3]
      exact nodup_objSet _ _ _ hnd2
    have h3message : objGet fs3 "message" = some (msgOrDash (.obj fs)) := by
      rw [hfs3, objGet_objSet_ne _ _ _ _ (by decide)]
      exact h2message
    have h3msg : objGet fs3 "msg" = none := by
      rw [hfs3, objGet_objSet_ne _ _ _ _ (by decide)]
      exact h2msg
    by_cases hct : (objGet fs3 "time").elim false jsTruthy = true
    case pos =>
      rw [if_pos hct, mergeResult_emptyAdd _ (nodup_objDelete _ _ hnd3)]
      refine ⟨objDelete fs3 "time", rfl, ?_, ?_⟩
      · rw [objGet_objDelete_ne _ _ _ (by decide)]
        exact h3message
      · rw [objGet_objDelete_ne _ _ _ (by decide), h3msg, if_pos hc]
    case neg =>
      rw [if_neg hct, mergeResult_emptyAdd _ hnd3]
      refine ⟨fs3, rfl, h3message, ?_⟩
      rw [h3msg, if_pos hc]
  case neg =>
    rw [if_neg hc]
    have hset : setDateTimeString env (.obj fs1) = .ok ts := by
      rw [setDateTimeString_congr env _ fs h1t]
      exact hts
    rw [objBranchTail_ok env _ _ ts hset]
    set fs3 := objSet fs1 "@timestamp" (.str ts) with hfs3
    have hnd3 : (objKeys fs3).Nodup := by
      rw [hfs3]
      exact nodup_objSet _ _ _ hnd1
    have h3message : objGet fs3 "message" = some (msgOrDash (.obj fs)) := by
      rw [hfs3, objGet_objSet_ne _ _ _ _ (by decide)]
      exact h1message
    have h3msg : objGet fs3 "msg" = objGet fs "msg" := by
      rw [hfs3, objGet_objSet_ne _ _ _ _ (by decide)]
      exact h1msg
    by_cases hct : (objGet fs3 "time").elim false jsTruthy = true
    case pos =>
      rw [if_pos hct, mergeResult_emptyAdd _ (nodup_objDelete _ _ hnd3)]
      refine ⟨objDelete fs3 "time", rfl, ?_, ?_⟩
      · rw [objGet_objDelete_ne _ _ _ (by decide)]
        exact h3message
      · rw [objGet_objDelete_ne _ _ _ (by decide), h3msg, if_neg hc]
    case neg =>
      rw [if_neg hct, mergeResult_emptyAdd _ hnd3]
      refine ⟨fs3, rfl, h3message, ?_⟩
      rw [h3msg, if_neg hc]

/-- C8 witness: the amended theorem at msg "hello": the final document
carries message "hello" and no `msg` field. -/
theorem c8_witness :
    ∃ d, mapLine envA (some (Json.obj [])) "w" (some (.obj [("msg", .str "hello")]))
        = ⟨.ok (some (.obj d)), [], []⟩
      ∧ objGet d "message" = some (msgOrDash (.obj [("msg", .str "hello")]))
      ∧ objGet d "msg" =
          (if (objGet [("msg", Json.str "hello")] "msg").elim false jsTruthy
           then none else objGet [("msg", Json.str "hello")] "msg") :=
  c8_theorem envA "w" [("msg", .str "hello")] "1970-01-01T00:00:12.345Z" (by decide) rfl

end PinoES
